import Mathlib

/-!
Verification development for the notebook cell-editing core of the
google-colab MCP server.

Code-text is modelled as its character sequence (`List Char`), the JS string
being a sequence of characters; a cell's `source` is a list of line-fragments,
each itself a character sequence.  The notebook document is a record holding
the ordered cell list plus the opaque top-level fields that serialization
preserves.  Tool operations return `Except McpErr Notebook`: an `.error`
result models the handler throwing before the Drive write, so the stored
document is unchanged.
-/

/-- A fragment of code-text: JS strings modelled as character lists. -/
abbrev Str := List Char

/-- JS `s.split('\n')`: split a character sequence on newline characters.
`split` of the empty string is `[[]]`, and each newline separates two
(possibly empty) chunks, exactly as in JavaScript. -/
def splitNl : Str → List Str
  | [] => [[]]
  | c :: cs =>
    if c = '\n' then [] :: splitNl cs
    else
      match splitNl cs with
      | [] => [[c]]
      | l :: ls => (c :: l) :: ls

/-- JS `line.replace(/\n$/, '')`: drop one trailing newline if present. -/
def stripTrailNl (l : Str) : Str :=
  if l.getLast? = some '\n' then l.dropLast else l

/-- Apply `f` to the last element of a list only (the source mutates
`source[source.length - 1]` in place, guarded by `source.length > 0`). -/
def mapLast (f : Str → Str) : List Str → List Str
  | [] => []
  | [l] => [f l]
  | l :: l₂ :: ls => l :: mapLast f (l₂ :: ls)

/-- The source's step 2 cleanup: `if (source.length > 0 && source[last] === '\n')
source.pop()` — drop the final fragment when it is exactly `"\n"` (a `getLast?`
of the empty list is `none`, so the length guard is subsumed). -/
def popTrailingNlFragment (src : List Str) : List Str :=
  if src.getLast? = some ['\n'] then src.dropLast else src

/-- The line-fragment encoding used by both `add_code_cell` and
`edit_code_cell`:
`code.split('\n').map(line => line + '\n')`, then pop the last fragment if it
is exactly `"\n"`, then strip the trailing newline from the (new) last
fragment. -/
def encodeSource (code : Str) : List Str :=
  mapLast stripTrailNl
    (popTrailingNlFragment ((splitNl code).map (fun line => line ++ ['\n'])))

/-- Concatenation of the fragments of a cell source (the decoding direction:
fragments carry their terminators, so joining is plain concatenation). -/
def joinFrags (frags : List Str) : Str := frags.flatten

/-- Joining chunks with the `'\n'` separator restored between them: the
left inverse of `splitNl`. -/
def joinNl : List Str → Str
  | [] => []
  | [l] => l
  | l :: l₂ :: ls => l ++ '\n' :: joinNl (l₂ :: ls)

/-- MCP error codes used by the tool-call handler. -/
inductive ErrorCode where
  | invalidParams
  | internalError
  | invalidRequest
  | methodNotFound
deriving Repr, DecidableEq

/-- An `McpError` thrown by the handler: an error code plus the human-readable
message built by the handler. -/
structure McpErr where
  code : ErrorCode
  message : String
deriving Repr, DecidableEq

/-- A notebook cell as manipulated by the handler.  `cell_type`, the nullable
`execution_count`, the `metadata` bag, the `outputs` list and the
line-fragment `source` are the nbformat fields the handler reads or writes;
`extra` stands for any further fields of the parsed JSON object, which
serialization preserves untouched. -/
structure Cell where
  cell_type : String
  execution_count : Option Int
  metadata : List (String × String)
  outputs : List String
  source : List Str
  extra : List (String × String)
deriving Repr, DecidableEq

/-- The parsed notebook document: the ordered `cells` array plus the opaque
top-level fields (`meta`) that `JSON.stringify` writes back unchanged. -/
structure Notebook where
  cells : List Cell
  meta : List (String × String)
deriving Repr, DecidableEq

/-- Outcome of fetching and `JSON.parse`-ing the document text:
the parse throws, or it yields a record without a `cells` array
(`!Array.isArray(notebookJson.cells)`), or it yields a well-formed notebook. -/
inductive RawDoc where
  | invalidJson
  | jsonWithoutCells (payload : List (String × String))
  | wellFormed (nb : Notebook)
deriving Repr, DecidableEq

/-- The parse/validate guard both tools run before touching the cells:
`JSON.parse` failure and a missing `cells` array each throw an `McpError`
with `ErrorCode.InternalError` and the handler's message. -/
def parseNotebook : RawDoc → Except McpErr Notebook
  | .invalidJson =>
    .error { code := .internalError
           , message := "Failed to parse notebook content. Is it a valid .ipynb file?" }
  | .jsonWithoutCells _ =>
    .error { code := .internalError
           , message := "Invalid notebook structure: \"cells\" array not found." }
  | .wellFormed nb => .ok nb

/-- The fresh cell built by `add_code_cell`: kind `code`, no execution count,
empty metadata, empty outputs, source from the line-fragment encoding. -/
def newCodeCell (code : Str) : Cell :=
  { cell_type := "code"
  , execution_count := none
  , metadata := []
  , outputs := []
  , source := encodeSource code
  , extra := [] }

/-- JS `cells.splice(p, 0, c)`: insert `c` at index `p`, shifting the
following cells forward (for `p` beyond the length, `splice` appends). -/
def spliceInsert (cells : List Cell) (p : Nat) (c : Cell) : List Cell :=
  match p, cells with
  | 0, cs => c :: cs
  | _ + 1, [] => [c]
  | n + 1, x :: cs => x :: spliceInsert cs n c

/-- The `add_code_cell` tool on a fetched document: parse guard, build the new
cell, then `splice` when `position !== undefined && position >= 0 &&
position <= cells.length`, otherwise `push`.  An `.ok` result is the document
written back to the store; an `.error` is the thrown `McpError`, with no
write performed. -/
def addCodeCell (raw : RawDoc) (code : Str) (position : Option Int) :
    Except McpErr Notebook :=
  match parseNotebook raw with
  | .error e => .error e
  | .ok nb =>
    match position with
    | some p =>
      if 0 ≤ p ∧ p ≤ (nb.cells.length : Int) then
        .ok { nb with cells := spliceInsert nb.cells p.toNat (newCodeCell code) }
      else
        .ok { nb with cells := nb.cells ++ [newCodeCell code] }
    | none => .ok { nb with cells := nb.cells ++ [newCodeCell code] }

/-- The `edit_code_cell` tool on a fetched document: parse guard, bounds check
(`cellIndex < 0 || cellIndex >= cells.length` throws with the index and the
cell count in the message), kind check (non-`code` cells throw with the actual
kind in the message), then replacement of the target cell's `source` by the
line-fragment encoding of the new code.  `.error` models the throw: the store
write is never reached and the stored document is unchanged. -/
def editCodeCell (raw : RawDoc) (cellIndex : Int) (newCode : Str) :
    Except McpErr Notebook :=
  match parseNotebook raw with
  | .error e => .error e
  | .ok nb =>
    if h : cellIndex < 0 ∨ (nb.cells.length : Int) ≤ cellIndex then
      .error { code := .invalidParams
             , message := "Invalid cell index: " ++ toString cellIndex ++
                 ". Notebook has " ++ toString nb.cells.length ++ " cells." }
    else
      let target := nb.cells.get ⟨cellIndex.toNat, by omega⟩
      if target.cell_type ≠ "code" then
        .error { code := .invalidParams
               , message := "Cell at index " ++ toString cellIndex ++
                   " is not a code cell (type: " ++ target.cell_type ++ ")." }
      else
        .ok { nb with
              cells := nb.cells.set cellIndex.toNat
                { target with source := encodeSource newCode } }

theorem splitNl_ne_nil (cs : Str) : splitNl cs ≠ [] := by
  match cs with
  | [] => simp [splitNl]
  | c :: cs =>
    by_cases h : c = '\n'
    · simp [splitNl, h]
    · have := splitNl_ne_nil cs
      cases hs : splitNl cs with
      | nil => exact absurd hs this
      | cons l ls => simp [splitNl, h, hs]

theorem joinNl_splitNl (cs : Str) : joinNl (splitNl cs) = cs := by
  match cs with
  | [] => rfl
  | c :: cs =>
    have ih := joinNl_splitNl cs
    by_cases h : c = '\n'
    · subst h
      cases hs : splitNl cs with
      | nil => exact absurd hs (splitNl_ne_nil cs)
      | cons l ls =>
        rw [hs] at ih
        simp [splitNl, hs, joinNl, ih]
    · cases hs : splitNl cs with
      | nil => exact absurd hs (splitNl_ne_nil cs)
      | cons l ls =>
        rw [hs] at ih
        cases ls with
        | nil =>
          simp [joinNl] at ih
          simp [splitNl, h, hs, joinNl, ih]
        | cons l₂ ls =>
          simp [splitNl, h, hs, joinNl] at ih ⊢
          exact ih

theorem splitNl_append_nl (xs : Str) : splitNl (xs ++ ['\n']) = splitNl xs ++ [[]] := by
  match xs with
  | [] => rfl
  | c :: xs =>
    have ih := splitNl_append_nl xs
    by_cases h : c = '\n'
    · simp [splitNl, h, ih]
    · cases hs : splitNl xs with
      | nil => exact absurd hs (splitNl_ne_nil xs)
      | cons l ls =>
        rw [hs] at ih
        simp [splitNl, h, ih, hs]

theorem splitNl_cons_nl (cs : Str) : splitNl ('\n' :: cs) = [] :: splitNl cs := by
  simp [splitNl]

theorem splitNl_cons_ne (c : Char) (cs : Str) (h : c ≠ '\n') (l : Str) (ls : List Str)
    (hs : splitNl cs = l :: ls) : splitNl (c :: cs) = (c :: l) :: ls := by
  rw [splitNl, if_neg h, hs]

theorem splitNl_getLast_ne_nil (cs : Str) (h₀ : cs ≠ []) (h₁ : cs.getLast? ≠ some '\n') :
    (splitNl cs).getLast? ≠ some [] := by
  match cs with
  | [c] =>
    have hc : c ≠ '\n' := by simpa using h₁
    rw [splitNl_cons_ne c [] hc [] [] rfl]
    simp
  | c :: c₂ :: cs =>
    have htail : (c₂ :: cs).getLast? ≠ some '\n' := by simpa using h₁
    have ih := splitNl_getLast_ne_nil (c₂ :: cs) (by simp) htail
    cases hs : splitNl (c₂ :: cs) with
    | nil => exact absurd hs (splitNl_ne_nil _)
    | cons l ls =>
      rw [hs] at ih
      by_cases h : c = '\n'
      · subst h
        rw [splitNl_cons_nl, hs]
        simpa using ih
      · rw [splitNl_cons_ne c (c₂ :: cs) h l ls hs]
        cases ls with
        | nil => simp
        | cons l₂ ls => simpa using ih

theorem splitNl_getLast_of_endsNl (cs : Str) (h : cs.getLast? = some '\n') :
    (splitNl cs).getLast? = some [] := by
  obtain ⟨ys, rfl⟩ := List.getLast?_eq_some_iff.mp h
  rw [splitNl_append_nl]
  simp

theorem mapLast_getLast? (f : Str → Str) (ls : List Str) :
    (mapLast f ls).getLast? = ls.getLast?.map f := by
  match ls with
  | [] => rfl
  | [l] => rfl
  | l :: l₂ :: ls =>
    have ih := mapLast_getLast? f (l₂ :: ls)
    show (l :: mapLast f (l₂ :: ls)).getLast? = _
    cases hm : mapLast f (l₂ :: ls) with
    | nil => cases ls <;> simp [mapLast] at hm
    | cons m ms =>
      rw [hm] at ih
      simpa using ih

theorem stripTrailNl_append_nl (l : Str) : stripTrailNl (l ++ ['\n']) = l := by
  simp [stripTrailNl]

theorem flatten_mapLast_strip (ls : List Str) (h : ls ≠ []) :
    (mapLast stripTrailNl (ls.map (fun l => l ++ ['\n']))).flatten = joinNl ls := by
  match ls with
  | [l] => simp [mapLast, stripTrailNl_append_nl, joinNl]
  | l :: l₂ :: ls =>
    have ih := flatten_mapLast_strip (l₂ :: ls) (by simp)
    simp only [List.map_cons, mapLast, List.flatten_cons, joinNl] at ih ⊢
    rw [ih]
    simp [joinNl]

theorem encode_of_not_endsNl (cs : Str) (h₀ : cs ≠ []) (h₁ : cs.getLast? ≠ some '\n') :
    encodeSource cs = mapLast stripTrailNl ((splitNl cs).map (fun l => l ++ ['\n'])) := by
  unfold encodeSource popTrailingNlFragment
  rw [if_neg]
  intro hc
  rw [List.getLast?_map] at hc
  cases hlast : (splitNl cs).getLast? with
  | none => rw [hlast] at hc; simp at hc
  | some l =>
    rw [hlast] at hc
    have hl : l = [] := by
      cases l with
      | nil => rfl
      | cons x xs =>
        simp only [Option.map_some'] at hc
        have := congrArg List.length (Option.some_injective _ hc)
        simp at this
    exact splitNl_getLast_ne_nil cs h₀ h₁ (hl ▸ hlast)

theorem encode_append_nl_eq (cs : Str) :
    encodeSource (cs ++ ['\n']) = mapLast stripTrailNl ((splitNl cs).map (fun l => l ++ ['\n'])) := by
  unfold encodeSource popTrailingNlFragment
  rw [splitNl_append_nl, List.map_append]
  simp only [List.map_cons, List.map_nil, List.nil_append]
  rw [if_pos (by simp), List.dropLast_concat]

theorem join_encode_not_endsNl (cs : Str) (h : cs.getLast? ≠ some '\n') :
    joinFrags (encodeSource cs) = cs := by
  cases hcs : cs with
  | nil => rfl
  | cons c cs' =>
    rw [← hcs]
    rw [encode_of_not_endsNl cs (by rw [hcs]; simp) h]
    unfold joinFrags
    rw [flatten_mapLast_strip _ (splitNl_ne_nil cs), joinNl_splitNl]

theorem join_encode_endsNl (cs : Str) (h : cs.getLast? = some '\n') :
    joinFrags (encodeSource cs) = cs.dropLast := by
  obtain ⟨ys, rfl⟩ := List.getLast?_eq_some_iff.mp h
  rw [encode_append_nl_eq]
  unfold joinFrags
  rw [flatten_mapLast_strip _ (splitNl_ne_nil ys), joinNl_splitNl, List.dropLast_concat]

theorem encode_getLast_double_nl (u : Str) (h : u.getLast? = some '\n') :
    (encodeSource (u ++ ['\n'])).getLast? = some [] := by
  rw [encode_append_nl_eq, mapLast_getLast?, List.getLast?_map,
    splitNl_getLast_of_endsNl u h]
  rfl

theorem spliceInsert_length (cells : List Cell) (p : Nat) (c : Cell) :
    (spliceInsert cells p c).length = cells.length + 1 := by
  match p, cells with
  | 0, cs => simp [spliceInsert]
  | _ + 1, [] => simp [spliceInsert]
  | n + 1, x :: cs => simp [spliceInsert, spliceInsert_length cs n c]

theorem spliceInsert_get_self (cells : List Cell) (p : Nat) (c : Cell)
    (h : p ≤ cells.length) : (spliceInsert cells p c).get? p = some c := by
  match p, cells with
  | 0, cs => simp [spliceInsert]
  | n + 1, [] => simp at h
  | n + 1, x :: cs =>
    have := spliceInsert_get_self cs n c (by simpa using h)
    simpa [spliceInsert]

theorem spliceInsert_get_lt (cells : List Cell) (p : Nat) (c : Cell)
    (hp : p ≤ cells.length) (j : Nat) (h : j < p) :
    (spliceInsert cells p c).get? j = cells.get? j := by
  match p, cells, j with
  | 0, _, j => omega
  | n + 1, [], j => simp at hp
  | n + 1, x :: cs, 0 => simp [spliceInsert]
  | n + 1, x :: cs, j + 1 =>
    have := spliceInsert_get_lt cs n c (by simpa using hp) j (by omega)
    simpa [spliceInsert]

theorem spliceInsert_get_ge (cells : List Cell) (p : Nat) (c : Cell)
    (j : Nat) (h : p ≤ j) : (spliceInsert cells p c).get? (j + 1) = cells.get? j := by
  match p, cells with
  | 0, cs => simp [spliceInsert]
  | n + 1, [] =>
    cases j with
    | zero => omega
    | succ j => simp [spliceInsert]
  | n + 1, x :: cs =>
    cases j with
    | zero => omega
    | succ j =>
      have := spliceInsert_get_ge cs n c j (by omega)
      simpa [spliceInsert]

theorem spliceInsert_append (cells : List Cell) (c : Cell) :
    spliceInsert cells cells.length c = cells ++ [c] := by
  match cells with
  | [] => rfl
  | x :: cs => simp [spliceInsert, List.length_cons, spliceInsert_append cs c]

/-- C1: for every code-text that does not end in a line-break character,
joining the fragments produced by the line-fragment encoding reproduces the
text exactly. -/
theorem C1_join_encode_roundtrip (t : Str) (h : t.getLast? ≠ some '\n') :
    joinFrags (encodeSource t) = t :=
  join_encode_not_endsNl t h

theorem C1_witness :
    (['a', '\n', 'b'] : Str).getLast? ≠ some '\n' ∧
      joinFrags (encodeSource ['a', '\n', 'b']) = ['a', '\n', 'b'] :=
  ⟨by decide, C1_join_encode_roundtrip ['a', '\n', 'b'] (by decide)⟩

/-- C7 counterexample: the empty code-text does not end in a line-break
character, yet appending one line-break changes its encoding — the encoding
of `"\n"` is `[""]` while the encoding of `""` is `[]` (the pop of the lone
`"\n"` fragment leaves nothing, and the length guard skips the strip). -/
theorem C7_counterexample :
    (([] : Str).getLast? ≠ some '\n') ∧
      encodeSource (([] : Str) ++ ['\n']) ≠ encodeSource ([] : Str) := by
  decide

/-- C7 (amended): for every nonempty code-text that does not end in a
line-break character, the line-fragment encoding of the text followed by a
single line-break equals the encoding of the text itself. -/
theorem C7_encode_trailing_nl (t : Str) (h₀ : t ≠ []) (h₁ : t.getLast? ≠ some '\n') :
    encodeSource (t ++ ['\n']) = encodeSource t := by
  rw [encode_append_nl_eq, encode_of_not_endsNl t h₀ h₁]

theorem C7_witness :
    ((['a'] : Str) ≠ [] ∧ (['a'] : Str).getLast? ≠ some '\n') ∧
      encodeSource (['a'] ++ ['\n']) = encodeSource ['a'] :=
  ⟨⟨by decide, by decide⟩, C7_encode_trailing_nl ['a'] (by decide) (by decide)⟩

/-- C8 counterexample: the line-fragment encoding of the empty code-text is
the empty sequence, not a one-element sequence holding the empty fragment:
`"".split('\n')` is `[""]`, the map turns it into `["\n"]`, and the pop of
the trailing `"\n"` fragment leaves `[]`. -/
theorem C8_counterexample :
    encodeSource ([] : Str) ≠ [[]] ∧ (encodeSource ([] : Str)).length ≠ 1 := by
  decide

/-- C8 (amended): the line-fragment encoding of the empty code-text is the
empty sequence of fragments. -/
theorem C8_encode_empty : encodeSource ([] : Str) = [] := by decide

/-- C10 counterexample: the empty text and the lone line-break differ only by
one trailing line-break, yet their encodings differ (`[]` versus `[""]`), so
the claimed identification fails at this pair. -/
theorem C10_counterexample :
    encodeSource ([] : Str) = [] ∧ encodeSource ['\n'] = [[]] ∧
      encodeSource ([] : Str) ≠ encodeSource ['\n'] := by
  decide

/-- C10 (amended): for every code-text ending in a line-break, joining the
encoded fragments yields the text with exactly one trailing line-break
removed; for every nonempty text not ending in a line-break, the text and
the text with one line-break appended have identical encodings (so the
encoding is not injective); and a text ending in two or more line-breaks
keeps an empty final fragment.  The only exception to the identification is
the empty text, whose encoding (`[]`) differs from that of `"\n"` (`[""]`). -/
theorem C10_trailing_newline_behavior :
    (∀ t : Str, t.getLast? = some '\n' → joinFrags (encodeSource t) = t.dropLast) ∧
    (∀ s : Str, s ≠ [] → s.getLast? ≠ some '\n' →
      encodeSource (s ++ ['\n']) = encodeSource s) ∧
    (∀ u : Str, u.getLast? = some '\n' →
      (encodeSource (u ++ ['\n'])).getLast? = some []) := by
  refine ⟨join_encode_endsNl, ?_, encode_getLast_double_nl⟩
  intro s h₀ h₁
  rw [encode_append_nl_eq, encode_of_not_endsNl s h₀ h₁]

theorem C10_witness :
    joinFrags (encodeSource ['a', '\n']) = ['a'] ∧
      encodeSource (['b'] ++ ['\n']) = encodeSource ['b'] ∧
      (encodeSource (['c', '\n'] ++ ['\n'])).getLast? = some [] :=
  ⟨C10_trailing_newline_behavior.1 ['a', '\n'] (by decide),
   C10_trailing_newline_behavior.2.1 ['b'] (by decide) (by decide),
   C10_trailing_newline_behavior.2.2 ['c', '\n'] (by decide)⟩

theorem addCodeCell_some_eq (nb : Notebook) (code : Str) (k : Nat)
    (hk : k ≤ nb.cells.length) :
    addCodeCell (.wellFormed nb) code (some (k : Int)) =
      .ok { nb with cells := spliceInsert nb.cells k (newCodeCell code) } := by
  unfold addCodeCell parseNotebook
  dsimp only
  rw [if_pos ⟨by omega, by omega⟩]
  simp

/-- C2: inserting a code cell at index `k` (with `0 ≤ k ≤ n`) into a
well-formed document succeeds and yields `n + 1` cells, with the new cell at
index `k`, the cells before `k` unchanged, the cells from `k` on shifted
forward by one, and the new cell having kind `code`, a null execution count,
empty outputs, empty metadata, and the line-fragment encoding of the
code-text as source. -/
theorem C2_insert_at_index (nb : Notebook) (code : Str) (k : Nat)
    (hk : k ≤ nb.cells.length) :
    ∃ nb', addCodeCell (.wellFormed nb) code (some (k : Int)) = .ok nb' ∧
      nb'.cells.length = nb.cells.length + 1 ∧
      nb'.cells.get? k = some (newCodeCell code) ∧
      (∀ j, j < k → nb'.cells.get? j = nb.cells.get? j) ∧
      (∀ j, k ≤ j → nb'.cells.get? (j + 1) = nb.cells.get? j) ∧
      (newCodeCell code).cell_type = "code" ∧
      (newCodeCell code).execution_count = none ∧
      (newCodeCell code).outputs = [] ∧
      (newCodeCell code).metadata = [] ∧
      (newCodeCell code).source = encodeSource code := by
  refine ⟨{ nb with cells := spliceInsert nb.cells k (newCodeCell code) },
    addCodeCell_some_eq nb code k hk, ?_, ?_, ?_, ?_, rfl, rfl, rfl, rfl, rfl⟩
  · exact spliceInsert_length nb.cells k (newCodeCell code)
  · exact spliceInsert_get_self nb.cells k (newCodeCell code) hk
  · exact fun j hj => spliceInsert_get_lt nb.cells k (newCodeCell code) hk j hj
  · exact fun j hj => spliceInsert_get_ge nb.cells k (newCodeCell code) j hj

theorem C2_witness :
    (1 ≤ (Notebook.mk
        [{ cell_type := "markdown", execution_count := none, metadata := [],
           outputs := [], source := [], extra := [] }] []).cells.length) ∧
    ∃ nb', addCodeCell
        (.wellFormed (Notebook.mk
          [{ cell_type := "markdown", execution_count := none, metadata := [],
             outputs := [], source := [], extra := [] }] []))
        ['x'] (some ((1 : Nat) : Int)) = .ok nb' ∧
      nb'.cells.length = 2 ∧
      nb'.cells.get? 1 = some (newCodeCell ['x']) ∧
      (∀ j, j < 1 → nb'.cells.get? j =
        (Notebook.mk
          [{ cell_type := "markdown", execution_count := none, metadata := [],
             outputs := [], source := [], extra := [] }] []).cells.get? j) ∧
      (∀ j, 1 ≤ j → nb'.cells.get? (j + 1) =
        (Notebook.mk
          [{ cell_type := "markdown", execution_count := none, metadata := [],
             outputs := [], source := [], extra := [] }] []).cells.get? j) ∧
      (newCodeCell ['x']).cell_type = "code" ∧
      (newCodeCell ['x']).execution_count = none ∧
      (newCodeCell ['x']).outputs = [] ∧
      (newCodeCell ['x']).metadata = [] ∧
      (newCodeCell ['x']).source = encodeSource ['x'] :=
  ⟨by decide, C2_insert_at_index _ ['x'] 1 (by decide)⟩

theorem addCodeCell_none_eq (nb : Notebook) (code : Str) :
    addCodeCell (.wellFormed nb) code none =
      .ok { nb with cells := nb.cells ++ [newCodeCell code] } := rfl

theorem addCodeCell_oob_eq (nb : Notebook) (code : Str) (p : Int)
    (hp : (nb.cells.length : Int) < p) :
    addCodeCell (.wellFormed nb) code (some p) =
      .ok { nb with cells := nb.cells ++ [newCodeCell code] } := by
  unfold addCodeCell parseNotebook
  dsimp only
  rw [if_neg (by omega)]

/-- C6: inserting with the position omitted and inserting with a position
strictly greater than the cell count both produce exactly the append — the
document obtained by inserting the new cell at index `n` — and neither raises
an error (the out-of-range position is never used as supplied). -/
theorem C6_append_fallback (nb : Notebook) (code : Str) (p : Int)
    (hp : (nb.cells.length : Int) < p) :
    addCodeCell (.wellFormed nb) code (some p) = addCodeCell (.wellFormed nb) code none ∧
    addCodeCell (.wellFormed nb) code none =
      .ok { nb with cells := spliceInsert nb.cells nb.cells.length (newCodeCell code) } := by
  constructor
  · rw [addCodeCell_oob_eq nb code p hp, addCodeCell_none_eq]
  · rw [addCodeCell_none_eq, spliceInsert_append]

theorem C6_witness :
    ((Notebook.mk [] []).cells.length : Int) < 5 ∧
    (addCodeCell (.wellFormed (Notebook.mk [] [])) ['y'] (some 5) =
        addCodeCell (.wellFormed (Notebook.mk [] [])) ['y'] none ∧
      addCodeCell (.wellFormed (Notebook.mk [] [])) ['y'] none =
        .ok { Notebook.mk [] [] with
              cells := spliceInsert (Notebook.mk [] []).cells
                (Notebook.mk [] []).cells.length (newCodeCell ['y']) }) :=
  ⟨by decide, C6_append_fallback (Notebook.mk [] []) ['y'] 5 (by decide)⟩

theorem editCodeCell_ok_eq (nb : Notebook) (i : Nat) (newCode : Str)
    (h : i < nb.cells.length)
    (hc : (nb.cells.get ⟨i, h⟩).cell_type = "code") :
    editCodeCell (.wellFormed nb) (i : Int) newCode =
      .ok { nb with
            cells := nb.cells.set i
              { nb.cells.get ⟨i, h⟩ with source := encodeSource newCode } } := by
  unfold editCodeCell parseNotebook
  dsimp only
  rw [dif_neg (by omega)]
  dsimp only
  rw [if_neg (fun hne => hne hc)]
  simp

/-- C3: replacing the source of an in-range code cell succeeds and changes
only that cell's `source`: the top-level fields other than the cell array are
unchanged, every other cell is identical before and after, and cell `i`
keeps its kind, execution count, outputs, metadata and extra fields, with its
source replaced by the line-fragment encoding of the new code. -/
theorem C3_replace_frame (nb : Notebook) (i : Nat) (newCode : Str)
    (h : i < nb.cells.length)
    (hc : (nb.cells.get ⟨i, h⟩).cell_type = "code") :
    ∃ nb', editCodeCell (.wellFormed nb) (i : Int) newCode = .ok nb' ∧
      nb'.meta = nb.meta ∧
      nb'.cells.length = nb.cells.length ∧
      (∀ j, j ≠ i → nb'.cells.get? j = nb.cells.get? j) ∧
      nb'.cells.get? i =
        some { nb.cells.get ⟨i, h⟩ with source := encodeSource newCode } := by
  refine ⟨_, editCodeCell_ok_eq nb i newCode h hc, rfl, by simp, ?_, ?_⟩
  · intro j hj
    exact List.get?_set_ne _ _ (fun hij => hj hij.symm)
  · exact List.get?_set_eq_of_lt _ h

theorem C3_witness :
    (0 < (Notebook.mk
      [Cell.mk "code" (some 5) [("collapsed", "false")] ["out1"] [['a']] [("id", "c1")]]
      [("nbformat", "4")]).cells.length) ∧
    ∃ nb', editCodeCell
        (.wellFormed (Notebook.mk
          [Cell.mk "code" (some 5) [("collapsed", "false")] ["out1"] [['a']] [("id", "c1")]]
          [("nbformat", "4")]))
        ((0 : Nat) : Int) ['b'] = .ok nb' ∧
      nb'.meta = [("nbformat", "4")] ∧
      nb'.cells.length = 1 ∧
      (∀ j, j ≠ 0 → nb'.cells.get? j =
        (Notebook.mk
          [Cell.mk "code" (some 5) [("collapsed", "false")] ["out1"] [['a']] [("id", "c1")]]
          [("nbformat", "4")]).cells.get? j) ∧
      nb'.cells.get? 0 =
        some (Cell.mk "code" (some 5) [("collapsed", "false")] ["out1"]
          (encodeSource ['b']) [("id", "c1")]) :=
  ⟨by decide, C3_replace_frame _ 0 ['b'] (by decide) rfl⟩

/-- C4: replacing at an index outside `[0, n)` — in particular `n` or `-1` —
fails with the bounds-check error (`ErrorCode.invalidParams`, the spec's
`RangeError`) whose message contains both the requested index and the actual
cell count, and the operation returns no document, so the store write is never
performed and the stored document is unchanged. -/
theorem C4_replace_out_of_range (nb : Notebook) (i : Int) (newCode : Str)
    (h : i < 0 ∨ (nb.cells.length : Int) ≤ i) :
    editCodeCell (.wellFormed nb) i newCode =
      .error { code := .invalidParams
             , message := "Invalid cell index: " ++ toString i ++
                 ". Notebook has " ++ toString nb.cells.length ++ " cells." } := by
  unfold editCodeCell parseNotebook
  dsimp only
  rw [dif_pos h]

theorem C4_witness :
    (((-1 : Int) < 0 ∨ ((Notebook.mk
        [Cell.mk "code" none [] [] [] []] []).cells.length : Int) ≤ -1) ∧
      ((1 : Int) < 0 ∨ ((Notebook.mk
        [Cell.mk "code" none [] [] [] []] []).cells.length : Int) ≤ 1)) ∧
    editCodeCell (.wellFormed (Notebook.mk [Cell.mk "code" none [] [] [] []] []))
        (-1) ['z'] =
      .error { code := .invalidParams
             , message := "Invalid cell index: " ++ toString (-1 : Int) ++
                 ". Notebook has " ++
                 toString (Notebook.mk [Cell.mk "code" none [] [] [] []] []).cells.length ++
                 " cells." } ∧
    editCodeCell (.wellFormed (Notebook.mk [Cell.mk "code" none [] [] [] []] []))
        1 ['z'] =
      .error { code := .invalidParams
             , message := "Invalid cell index: " ++ toString (1 : Int) ++
                 ". Notebook has " ++
                 toString (Notebook.mk [Cell.mk "code" none [] [] [] []] []).cells.length ++
                 " cells." } :=
  ⟨⟨Or.inl (by decide), Or.inr (by decide)⟩,
   C4_replace_out_of_range _ (-1) ['z'] (Or.inl (by decide)),
   C4_replace_out_of_range _ 1 ['z'] (Or.inr (by decide))⟩

/-- C5: replacing an in-range cell whose kind is not `code` fails with the
kind-check error (`ErrorCode.invalidParams`, the spec's
`InvalidOperationError`) whose message reports the actual kind found, and the
operation returns no document, so the store write is never reached and the
stored document is unchanged. -/
theorem C5_replace_wrong_kind (nb : Notebook) (i : Nat) (newCode : Str)
    (h : i < nb.cells.length)
    (hk : (nb.cells.get ⟨i, h⟩).cell_type ≠ "code") :
    editCodeCell (.wellFormed nb) (i : Int) newCode =
      .error { code := .invalidParams
             , message := "Cell at index " ++ toString (i : Int) ++
                 " is not a code cell (type: " ++
                 (nb.cells.get ⟨i, h⟩).cell_type ++ ")." } := by
  unfold editCodeCell parseNotebook
  dsimp only
  rw [dif_neg (by omega)]
  dsimp only
  simp only [Int.toNat_ofNat]
  rw [if_pos hk]

theorem C5_witness :
    (0 < (Notebook.mk [Cell.mk "markdown" none [] [] [] []] []).cells.length ∧
      ((Notebook.mk [Cell.mk "markdown" none [] [] [] []] []).cells.get
        ⟨0, by decide⟩).cell_type ≠ "code") ∧
    editCodeCell (.wellFormed (Notebook.mk [Cell.mk "markdown" none [] [] [] []] []))
        ((0 : Nat) : Int) ['z'] =
      .error { code := .invalidParams
             , message := "Cell at index " ++ toString ((0 : Nat) : Int) ++
                 " is not a code cell (type: " ++
                 ((Notebook.mk [Cell.mk "markdown" none [] [] [] []] []).cells.get
                   ⟨0, by decide⟩).cell_type ++ ")." } :=
  ⟨⟨by decide, by decide⟩,
   C5_replace_wrong_kind _ 0 ['z'] (by decide) (by decide)⟩

/-- C9: a fetched document that does not parse, or parses without a `cells`
array, makes both tools fail with the corresponding parse-guard error before
either the insert or the replace branch runs, so no write is performed. -/
theorem C9_parse_guard (payload : List (String × String)) (code : Str)
    (position : Option Int) (i : Int) (newCode : Str) :
    addCodeCell .invalidJson code position =
      .error { code := .internalError
             , message := "Failed to parse notebook content. Is it a valid .ipynb file?" } ∧
    addCodeCell (.jsonWithoutCells payload) code position =
      .error { code := .internalError
             , message := "Invalid notebook structure: \"cells\" array not found." } ∧
    editCodeCell .invalidJson i newCode =
      .error { code := .internalError
             , message := "Failed to parse notebook content. Is it a valid .ipynb file?" } ∧
    editCodeCell (.jsonWithoutCells payload) i newCode =
      .error { code := .internalError
             , message := "Invalid notebook structure: \"cells\" array not found." } :=
  ⟨rfl, rfl, rfl, rfl⟩
